import Mathlib

/-!
Verification of the SDG2000X waveform engine (src/Waveform.py, src/SDG2000X.py,
example/RFID.py) via a shallow embedding.

Python floats are modelled as rationals (ℚ): every arithmetic operation the
claims exercise (+, -, *, /, %, int(), math.ceil, comparisons) is exact on the
rational inputs involved, so ℚ is a faithful carrier for them.  Operations that
raise in Python (ZeroDivisionError on `/` or `%` by zero, IndexError on list
indexing) are modelled with `Option`: `none` means the Python call raises.
Python `float('inf')` repeat counts are modelled by a dedicated constructor.
-/

namespace SDG2000X

/-- Python `int(x)` applied to a float/rational: truncation toward zero. -/
def pytrunc (x : ℚ) : ℤ :=
  if 0 ≤ x then ⌊x⌋ else -⌊-x⌋

/-- Python float `%`: `t % p = t - p * floor (t / p)`; raises on `p = 0`. -/
def pymod (t p : ℚ) : Option ℚ :=
  if p = 0 then none else some (t - p * ⌊t / p⌋)

/-- Python list indexing `l[i]`: negative indices wrap once from the end;
anything still out of range raises IndexError (`none`). -/
def pyIndex {α : Type} (l : List α) (i : ℤ) : Option α :=
  if 0 ≤ i then l.get? i.toNat
  else if 0 ≤ i + l.length then l.get? (i + l.length).toNat
  else none

/-- Repeat count: an ordinary number or Python `float('inf')`
(`WaveformPeriodic.count`). -/
inductive Cnt where
  | fin (q : ℚ)
  | inf
deriving DecidableEq

/-- The test `timestamp >= self.period * self.count` from
`WaveformPeriodic.data_at`.  For an infinite count Python evaluates
`period * inf` to `inf` (period > 0), `-inf` (period < 0) or `nan`
(period = 0); comparisons with `nan` are false. -/
def durGE (t p : ℚ) : Cnt → Bool
  | .fin q => decide (p * q ≤ t)
  | .inf => if 0 < p then false else if p < 0 then true else false

/-- The test `timestamp < ctime + wave.period * wave.count` from
`WaveformSeq._data_at`, with the same `float('inf')` arithmetic as `durGE`
(finite `ctime`). -/
def durLT (t ctime p : ℚ) : Cnt → Bool
  | .fin q => decide (t < ctime + p * q)
  | .inf => decide (0 < p)

/-- Waveform syntax tree.  Each constructor carries the attributes the Python
classes store at construction time (`self.period`, `self.count`, sample data,
…); the smart constructors below compute the derived stored attributes exactly
as the Python `__init__` methods do.

* `base`  : `WaveformBase` — a constant; it stores no `period`/`count`
  attribute (its `get_period` is 0).
* `add`/`mul` : `WaveformAdd`/`WaveformMultiply` with their stored
  `period` and `count` attributes.
* `arb`   : `WaveformArb` (also used for `Ramp`, which is a 2-point arb).
* `delay` : `Delay`, a constant-valued periodic waveform.
* `seq`   : `WaveformSeq` with its stored (mutated by append/prepend) period.
* `mod`   : `Modulate` from RFID.py; `sc` is the stored `self.carrier`
  (already inverted in the destructive variant) and `sp` the stored period
  `carrier.period * len(bitstream)`.

`Sine`/`Square` are omitted: no claim evaluates them, and `Sine` needs real
trigonometry outside ℚ. -/
inductive Waveform where
  | base (data : ℚ)
  | add (ws : List Waveform) (sp : ℚ) (c : Cnt)
  | mul (ws : List Waveform) (sp : ℚ) (c : Cnt)
  | arb (p : ℚ) (data : List ℚ) (c : Cnt)
  | delay (p : ℚ) (v : ℚ) (c : Cnt)
  | seq (ws : List Waveform) (sp : ℚ) (c : Cnt)
  | mod (sc : Waveform) (bs : List ℤ) (m : ℚ) (destr : Bool) (sp : ℚ) (c : Cnt)

namespace Waveform

/-- `get_period`: the stored `period` attribute, or 0 for a bare
`WaveformBase` constant (which has none). -/
def period : Waveform → ℚ
  | .base _ => 0
  | .add _ sp _ => sp
  | .mul _ sp _ => sp
  | .arb p _ _ => p
  | .delay p _ _ => p
  | .seq _ sp _ => sp
  | .mod _ _ _ _ sp _ => sp

/-- The stored `count` attribute.  A bare `WaveformBase` has none in Python;
it is only ever queried on waveforms that do, so we give it the neutral 1. -/
def count : Waveform → Cnt
  | .base _ => .fin 1
  | .add _ _ c => c
  | .mul _ _ c => c
  | .arb _ _ c => c
  | .delay _ _ c => c
  | .seq _ _ c => c
  | .mod _ _ _ _ _ c => c

end Waveform

/-- `np.max` over the children's `get_period()` (used by
`WaveformAdd.__init__` / `WaveformMultiply.__init__`; `np.max` of an empty
list raises, a case never constructed — we give it 0). -/
def maxPeriods (ws : List Waveform) : ℚ :=
  match ws.map Waveform.period with
  | [] => 0
  | x :: xs => xs.foldl max x

/-- `np.sum` over the children's `period` (used by `WaveformSeq.__init__`). -/
def sumPeriods (ws : List Waveform) : ℚ :=
  (ws.map Waveform.period).sum

/-- `WaveformArb(period, data, count)` — stores its arguments. -/
def WaveformArb (p : ℚ) (data : List ℚ) (c : Cnt) : Waveform :=
  .arb p data c

/-- `Delay(period, val, count)`. -/
def Delay (p v : ℚ) (c : Cnt) : Waveform :=
  .delay p v c

/-- `Ramp(period, count, up)`: a 2-point `WaveformArb`, `[0,1]` going up,
`[1,0]` going down. -/
def Ramp (p : ℚ) (c : Cnt) (up : Bool) : Waveform :=
  if up then WaveformArb p [0, 1] c else WaveformArb p [1, 0] c

/-- `WaveformSeq(waves)`: stores the children and the sum of their periods;
the repeat count defaults to 1 (no caller passes one). -/
def WaveformSeq (ws : List Waveform) : Waveform :=
  .seq ws (sumPeriods ws) (.fin 1)

/-- `WaveformSeq.append`: adds the child at the end and bumps the stored
period by the child's period (delta update, not a recompute). -/
def Waveform.append : Waveform → Waveform → Waveform
  | .seq ws sp c, w => .seq (ws ++ [w]) (sp + w.period) c
  | other, _ => other

/-- `WaveformSeq.prepend`: adds the child at the front and bumps the stored
period by the child's period. -/
def Waveform.prepend : Waveform → Waveform → Waveform
  | .seq ws sp c, w => .seq (w :: ws) (sp + w.period) c
  | other, _ => other

/-- `WaveformBase.__mul__ (a, b)`: builds `WaveformMultiply([a, b], ...,
**a.__dict__.copy())`.  `WaveformMultiply.__init__` first sets
`period = np.max(get_periods)` and `count = 1`, then the base `__init__`
`__dict__.update(kwargs)` overwrites both with `a`'s own stored attributes
whenever `a` has them (every kind except a bare `WaveformBase`). -/
def wmul (a b : Waveform) : Waveform :=
  .mul [a, b]
    (match a with | .base _ => maxPeriods [a, b] | _ => a.period)
    (match a with | .base _ => .fin 1 | _ => a.count)

/-- `Modulate(carrier, bitstream, mod_index, destructive, count)` from
RFID.py: the destructive variant stores `self.carrier = carrier * -1`
(default value 0 past the burst), the non-destructive variant stores the raw
carrier (default value `self.carrier.data_at`); the stored period is
`carrier.period * len(bitstream)` computed from the original carrier. -/
def Modulate (carrier : Waveform) (bs : List ℤ) (m : ℚ) (destr : Bool)
    (c : Cnt) : Waveform :=
  .mod (if destr then wmul carrier (.base (-1)) else carrier)
    bs m destr (carrier.period * bs.length) c

/-- `WaveformArb.__timestep`: `period / (len(data) - 1)`; raises when the
sample list has exactly one element. -/
def arbTimestep (p : ℚ) (n : ℕ) : Option ℚ :=
  if n = 1 then none else some (p / ((n : ℚ) - 1))

/-- `WaveformArb._data_at` (with `__timestamp`, `__index`, `__before`,
`__after` inlined): clamp the step-aligned timestamp to `period`, clamp the
index to the last sample, interpolate linearly between the bracketing
samples.  `int(t / step)` raises when `step = 0`. -/
def arbData (p : ℚ) (data : List ℚ) (t : ℚ) : Option ℚ :=
  (arbTimestep p data.length).bind fun step =>
    if step = 0 then none
    else
      let ts0 : ℚ := (pytrunc (t / step) : ℚ) * step
      let x1 : ℚ := if ts0 < p then ts0 else p
      let i1 : ℤ := pytrunc (t / step)
      let i1c : ℤ := if i1 < (data.length : ℤ) - 1 then i1
                     else (data.length : ℤ) - 1
      let i2 : ℤ := pytrunc ((t + step) / step)
      let i2c : ℤ := if i2 < (data.length : ℤ) - 1 then i2
                     else (data.length : ℤ) - 1
      (pyIndex data i1c).bind fun y1 =>
        (pyIndex data i2c).map fun y2 =>
          y1 + (t - x1) * (y2 - y1) / (x1 + step - x1)

mutual

/-- `data_at`: the dispatching evaluator.  Constants return their stored
data; `WaveformAdd`/`WaveformMultiply` reduce the children pointwise (an
exception in any child propagates); the periodic kinds apply the
`WaveformPeriodic.data_at` wrapper (default past `period * count`, else
`_data_at (timestamp % period)`) around their `_data_at`. -/
def eval : Waveform → ℚ → Option ℚ
  | .base d, _ => some d
  | .add ws _ _, t => (evalList ws t).map (fun l => l.sum)
  | .mul ws _ _, t => (evalList ws t).map (fun l => l.prod)
  | .arb p data c, t =>
      if durGE t p c then some 0 else (pymod t p).bind (arbData p data)
  | .delay p v c, t =>
      if durGE t p c then some 0 else (pymod t p).map (fun _ => v)
  | .seq ws sp c, t =>
      if durGE t sp c then some 0
      else (pymod t sp).bind (fun tl => seqData ws 0 tl)
  | .mod sc bs m destr sp c, t =>
      if durGE t sp c then (if destr then some 0 else eval sc t)
      else
        (pymod t sp).bind fun tl =>
          if sc.period = 0 then none
          else
            (pyIndex bs (pytrunc (tl / sc.period))).bind fun b =>
              if b ≠ 0 then
                (eval sc tl).map (fun v => v * (if destr then m else 1 - m))
              else if destr then some 0 else eval sc tl

/-- Children of a sum/product evaluated at the same timestamp. -/
def evalList : List Waveform → ℚ → Option (List ℚ)
  | [], _ => some []
  | w :: ws, t =>
      (eval w t).bind fun v => (evalList ws t).map fun l => v :: l

/-- `WaveformSeq._data_at`: walk the children accumulating elapsed time;
delegate to the first child whose `[ctime, ctime + period*count)` window
contains the timestamp, else 0 past the end.  When an infinite-count child
falls through, Python's `ctime` becomes `inf`/`-inf`/`nan` and every later
window test is false, so the loop returns 0. -/
def seqData : List Waveform → ℚ → ℚ → Option ℚ
  | [], _, _ => some 0
  | w :: ws, ctime, t =>
      if durLT t ctime w.period w.count then eval w (t - ctime)
      else
        match w.count with
        | .inf => some 0
        | .fin q => seqData ws (ctime + w.period * q) t

end

/-! ### UART bit-sequence builder (`UARTModulate.__init__`, RFID.py) -/

/-- The inner 8-iteration loop of `UARTModulate.__init__`: per iteration
emit `[0]*cpb` when `d & 1` is set else `[1]*cpb` (inverted data bits,
LSB-first), xor the bit into the parity accumulator, shift `d` right.
Returns the emitted bits and the final parity accumulator. -/
def uartDataBits (cpb : ℕ) : ℕ → ℕ → ℕ → List ℕ × ℕ
  | 0, _, p => ([], p)
  | n + 1, d, p =>
      let b := d &&& 1
      let rest := uartDataBits cpb n (d >>> 1) (p ^^^ b)
      ((if b ≠ 0 then List.replicate cpb 0 else List.replicate cpb 1)
        ++ rest.1, rest.2)

/-- The per-byte loop of `UARTModulate.__init__`: start bit `[1]*cpb`, the 8
data bits, a parity bit for mode `'E'`/`'O'` (the accumulator `p` carries
over from byte to byte, it is initialised once before the loop), then
`[0]*stopbits*cpb` stop bits. -/
def uartLoop (parity : Char) (stopbits cpb : ℕ) : List ℕ → ℕ → List ℕ
  | [], _ => []
  | d :: ds, p =>
      let db := uartDataBits cpb 8 d p
      List.replicate cpb 1 ++ db.1 ++
        (if parity = 'E' then List.replicate cpb db.2
         else if parity = 'O' then List.replicate cpb (db.2 ^^^ 1)
         else []) ++
        List.replicate (stopbits * cpb) 0 ++
        uartLoop parity stopbits cpb ds db.2

/-- The bitstream built by `UARTModulate.__init__`: a leading idle padding
`[0] * int(delay / carrier.period)` (the division raises when the carrier
period is 0), then the per-byte frames.  Python's `[0] * n` is empty for
negative `n`, which `Int.toNat` reproduces. -/
def uartBitstream (carrierPeriod : ℚ) (data : List ℕ) (parity : Char)
    (stopbits : ℕ) (delay : ℚ) (cpb : ℕ) : Option (List ℕ) :=
  if carrierPeriod = 0 then none
  else some (List.replicate (pytrunc (delay / carrierPeriod)).toNat 0
    ++ uartLoop parity stopbits cpb data 0)

/-! ### Gap/ASK modulation builder (`GapModulate.__init__`, RFID.py) -/

/-- `GapModulate.__init__`: convert the four cycle counts to absolute times
against the carrier period; build the zero-symbol, one-symbol and idle
templates (falling/rising ramp plus a flat hold); prepend the initial hold of
`carrier.period * ceil(delay / carrier.period)`; then for each bit append the
selected symbol template followed by the idle template. -/
def GapModulate (carrier : Waveform) (bitstream : List ℤ) (delay : ℚ)
    (c_zero c_one c_idle c_transition : ℕ) : Waveform :=
  let cp := carrier.period
  let t_transition : ℚ := (c_transition : ℚ) * cp
  let t_zero : ℚ := (c_zero : ℚ) * cp
  let t_one : ℚ := (c_one : ℚ) * cp
  let t_idle : ℚ := (c_idle : ℚ) * cp
  let zero := WaveformSeq [Ramp t_transition (.fin 1) false,
    WaveformArb (t_zero - t_transition) [0, 0] (.fin 1)]
  let one := WaveformSeq [Ramp t_transition (.fin 1) false,
    WaveformArb (t_one - t_transition) [0, 0] (.fin 1)]
  let idle := WaveformSeq [Ramp t_transition (.fin 1) true,
    WaveformArb (t_idle - t_transition) [1, 1] (.fin 1)]
  let init := WaveformArb (cp * (⌈delay / cp⌉ : ℤ)) [1, 1] (.fin 1)
  WaveformSeq (init ::
    bitstream.flatMap (fun b => [if b ≠ 0 then one else zero, idle]))

/-! ### Quantizer (`Signal.__init__`, SDG2000X.py, lines 79–83) -/

/-- `np.max (np.abs y)` over the sampled values (callers never pass an empty
list; we give that case 0, `signalQuantize` rejects it first). -/
def maxAbs (y : List ℚ) : ℚ :=
  match y.map abs with
  | [] => 0
  | x :: xs => xs.foldl max x

/-- The normalize-and-quantize step of `Signal.__init__`:
`self.y = y / np.max(np.abs(y))` then
`self.data = [int (v * np.max(Signal.MIN_MAX)) for v in self.y]` with
`np.max(Signal.MIN_MAX) = 32767`.  `np.max` of an empty array raises
(`none`).  When the maximum absolute value is 0, `y / 0.0` yields NaN
entries (a numpy warning, not an exception) and the later `int(NaN)`
conversion raises ValueError, so construction fails (`none`). -/
def signalQuantize (y : List ℚ) : Option (List ℤ) :=
  match y with
  | [] => none
  | _ :: _ =>
      if maxAbs y = 0 then none
      else some (y.map fun v => pytrunc (v / maxAbs y * 32767))

/-! ### Signal name check (`Signal.__init__`, SDG2000X.py, lines 46–48) -/

/-- Just enough of Python's value universe for the check
`['.', '_', ':', '-', '*', '+'] in list(self.name)`: one-character strings
(the elements of `list(name)`) and lists of strings (the needle).  Python's
`in` compares the needle against each element with `==`; a list never equals
a string. -/
inductive PyVal where
  | pstr (s : List Char)
  | plst (l : List (List Char))
deriving DecidableEq

/-- The reserved-character list from `Signal.__init__`. -/
def reservedNames : List (List Char) := [['.'], ['_'], [':'], ['-'], ['*'], ['+']]

/-- The test guarding `raise ValueError('Name must not contain (._:-)')`:
whether the whole reserved list occurs as an element of `list(self.name)`. -/
def signalNameRejected (name : List Char) : Bool :=
  decide (PyVal.plst reservedNames ∈ name.map (fun ch => PyVal.pstr [ch]))

/-- The stored-period invariant of `WaveformSeq`: the stored `self.period`
equals the sum of the children's periods.  Trivially true of the other
kinds, which have no child list. -/
def seqPeriodInv : Waveform → Prop
  | .seq ws sp _ => sp = sumPeriods ws
  | _ => True

/-! ## Helper lemmas -/

theorem sumPeriods_nil : sumPeriods [] = 0 := rfl

theorem sumPeriods_cons (w : Waveform) (ws : List Waveform) :
    sumPeriods (w :: ws) = w.period + sumPeriods ws := by
  simp [sumPeriods]

theorem sumPeriods_append (l1 l2 : List Waveform) :
    sumPeriods (l1 ++ l2) = sumPeriods l1 + sumPeriods l2 := by
  simp [sumPeriods]

theorem floor_div_eq_zero {t p : ℚ} (hp : 0 < p) (h0 : 0 ≤ t) (hlt : t < p) :
    ⌊t / p⌋ = 0 := by
  rw [Int.floor_eq_iff]
  constructor
  · exact_mod_cast div_nonneg h0 hp.le
  · push_cast
    simpa using (div_lt_one hp).mpr hlt

theorem floor_div_eq_one {t p : ℚ} (hp : 0 < p) (hge : p ≤ t)
    (hlt : t < 2 * p) : ⌊t / p⌋ = 1 := by
  rw [Int.floor_eq_iff]
  constructor
  · push_cast
    rw [le_div_iff₀ hp]
    linarith
  · push_cast
    rw [div_lt_iff₀ hp]
    linarith

/-- `t % p = t` when `0 ≤ t < p`. -/
theorem pymod_self {t p : ℚ} (hp : 0 < p) (h0 : 0 ≤ t) (hlt : t < p) :
    pymod t p = some t := by
  simp [pymod, hp.ne', floor_div_eq_zero hp h0 hlt]

/-- Evaluation of a two-sample `WaveformArb` (count 1) strictly inside its
period: linear interpolation from the first sample toward the second. -/
theorem arb_two_sample_eval (s0 s1 P t : ℚ) (hP : 0 < P) (h0 : 0 ≤ t)
    (hlt : t < P) :
    eval (WaveformArb P [s0, s1] (.fin 1)) t =
      some (s0 + t * (s1 - s0) / P) := by
  have hPne : P ≠ 0 := hP.ne'
  have hq0 : 0 ≤ t / P := div_nonneg h0 hP.le
  have hfl0 : ⌊t / P⌋ = 0 := floor_div_eq_zero hP h0 hlt
  have he : (t + P) / P = t / P + 1 := by field_simp
  have hq1 : (0:ℚ) ≤ (t + P) / P := by
    rw [he]
    linarith
  have hfl1 : ⌊(t + P) / P⌋ = 1 := by
    simp [he, Int.floor_add_one, hfl0]
  have hstep : P / ((2:ℚ) - 1) = P := by norm_num
  have hmod := pymod_self hP h0 hlt
  norm_num [eval, WaveformArb, durGE, not_le.mpr hlt, hmod, arbData,
    arbTimestep, hstep, pytrunc, pyIndex, hPne, hq0, hq1, hfl0, hfl1, hP]

/-- A `Delay` with infinite repeat count and positive period is the constant
`v` at every time. -/
theorem delay_inf_eval (p v t : ℚ) (hp : 0 < p) :
    eval (Delay p v .inf) t = some v := by
  simp [eval, Delay, durGE, hp, hp.ne', pymod]

/-- Sum of the stored periods over the per-bit symbol/idle pairs appended by
`GapModulate.__init__`. -/
theorem sumPeriods_flatMap_pair (one zero idle : Waveform) (bs : List ℤ) :
    sumPeriods (bs.flatMap fun b => [if b ≠ 0 then one else zero, idle]) =
      (bs.map fun b =>
        (if b ≠ 0 then one.period else zero.period) + idle.period).sum := by
  induction bs with
  | nil => simp [sumPeriods]
  | cons b rest ih =>
      rw [List.flatMap_cons, sumPeriods_append, ih, List.map_cons,
        List.sum_cons, sumPeriods_cons, sumPeriods_cons, sumPeriods_nil,
        apply_ite Waveform.period]
      ring

/-! ## Claims -/

/-- Claim C1, counterexample: the two-sample arb `[2, 3]` with period 1 and
repeat count 1 does NOT evaluate to the last sample at time `P = 1`: time
`P` is at `period * repeat_count`, so `data_at` takes the default branch and
returns 0, not 3. -/
theorem claim1_counterexample :
    eval (WaveformArb 1 [2, 3] (.fin 1)) 1 ≠ some 3 := by
  norm_num [eval, WaveformArb, durGE]

/-- Claim C1, amended: a two-sample arb `[s0, s1]` with period `P > 0` and
repeat count 1 evaluates to `s0` at time 0 and to the midpoint average of
`s0` and `s1` at `P/2`; at time `P` — which is at `period * repeat_count` —
it returns the default/after value 0, not the clamped last sample. -/
theorem claim1_arb_endpoints (s0 s1 P : ℚ) (hP : 0 < P) :
    eval (WaveformArb P [s0, s1] (.fin 1)) 0 = some s0 ∧
    eval (WaveformArb P [s0, s1] (.fin 1)) (P/2) = some ((s0 + s1)/2) ∧
    eval (WaveformArb P [s0, s1] (.fin 1)) P = some 0 := by
  refine ⟨?_, ?_, ?_⟩
  · rw [arb_two_sample_eval s0 s1 P 0 hP le_rfl hP]
    norm_num
  · rw [arb_two_sample_eval s0 s1 P (P/2) hP (by positivity) (by linarith)]
    congr 1
    field_simp
    ring
  · simp [eval, WaveformArb, durGE]

/-- Claim C1, witness: the amended statement at `[2, 3]`, period 1. -/
theorem claim1_witness :
    eval (WaveformArb 1 [2, 3] (.fin 1)) 0 = some 2 ∧
    eval (WaveformArb 1 [2, 3] (.fin 1)) (1/2) = some (5/2) ∧
    eval (WaveformArb 1 [2, 3] (.fin 1)) 1 = some 0 := by
  have h := claim1_arb_endpoints 2 3 1 (by norm_num)
  norm_num at h
  exact h

/-- Claim C2, counterexample: on byte `0x01` (no parity, 2 stop bits,
1 cycle per bit, zero delay) the builder does NOT produce the claimed
sequence `[1, 0,1,1,1,1,1,1,0, 0,0]` — after the inverted LSB `0`, bits 1–7
of `0x01` are all clear and each encodes as `1`, so the ninth element is `1`,
not `0`. -/
theorem claim2_counterexample :
    uartBitstream 1 [1] 'N' 2 0 1 ≠ some [1, 0, 1, 1, 1, 1, 1, 1, 0, 0, 0] := by
  norm_num [uartBitstream, uartLoop, uartDataBits, pytrunc]
  decide

/-- Claim C2, amended: encoding the single UART byte `0x01` with no parity,
2 stop bits, 1 cycle per bit and zero start delay (any nonzero carrier
period) yields `[1, 0,1,1,1,1,1,1,1, 0,0]`: a start bit `1`, the 8 data bits
LSB-first and inverted (`0` then seven `1`s), then two `0` stop bits. -/
theorem claim2_uart_byte01 (p : ℚ) (hp : p ≠ 0) :
    uartBitstream p [1] 'N' 2 0 1 = some [1, 0, 1, 1, 1, 1, 1, 1, 1, 0, 0] := by
  norm_num [uartBitstream, uartLoop, uartDataBits, pytrunc, hp]
  decide

/-- Claim C2, witness: the amended statement at carrier period 1. -/
theorem claim2_witness :
    uartBitstream 1 [1] 'N' 2 0 1 = some [1, 0, 1, 1, 1, 1, 1, 1, 1, 0, 0] :=
  claim2_uart_byte01 1 one_ne_zero

/-- Claim C3: amplitude-shift modulation of a constant carrier with
bitstream `[1, 0]` and `mod_index = 1/2`.  Non-destructive over a constant-1
carrier: every time in slot 0 gives `1 * (1 - 1/2) = 1/2` and every time in
slot 1 gives the unscaled carrier `1`.  Destructive over a constant `-1`
carrier (pre-inverted by the constructor to a `+1` constant): slot 0 gives
`1 * 1/2 = 1/2` and slot 1 gives 0. -/
theorem claim3_ask_modulation (p t : ℚ) (hp : 0 < p) :
    (0 ≤ t → t < p →
      eval (Modulate (Delay p 1 .inf) [1, 0] (1/2) false .inf) t = some (1/2) ∧
      eval (Modulate (Delay p (-1) .inf) [1, 0] (1/2) true .inf) t = some (1/2)) ∧
    (p ≤ t → t < 2 * p →
      eval (Modulate (Delay p 1 .inf) [1, 0] (1/2) false .inf) t = some 1 ∧
      eval (Modulate (Delay p (-1) .inf) [1, 0] (1/2) true .inf) t = some 0) := by
  have hp2 : (0:ℚ) < p * 2 := by linarith
  have hpne : p ≠ 0 := hp.ne'
  have hper1 : (Delay p 1 (.inf)).period = p := rfl
  have hper2 : (Delay p (-1) (.inf)).period = p := rfl
  have hscper : (wmul (Delay p (-1) (.inf)) (.base (-1))).period = p := rfl
  constructor
  · intro ht0 htp
    have hfl02 : ⌊t / (p * 2)⌋ = 0 :=
      floor_div_eq_zero hp2 ht0 (by linarith)
    have hq0 : 0 ≤ t / p := div_nonneg ht0 hp.le
    have hfl0 : ⌊t / p⌋ = 0 := floor_div_eq_zero hp ht0 htp
    have hdel := delay_inf_eval p 1 t hp
    have hsceval : eval (wmul (Delay p (-1) (.inf)) (.base (-1))) t
        = some 1 := by
      have h := delay_inf_eval p (-1) t hp
      simp only [wmul, Delay] at h ⊢
      norm_num [eval, evalList, h, durGE, hp, pymod, hpne]
    constructor
    · norm_num [Modulate, eval, evalList, durGE, hp2, hper1, hfl02, pytrunc,
        hq0, hfl0, pyIndex, hpne, hdel, pymod, hp.not_le]
    · norm_num [Modulate, eval, evalList, durGE, hp2, hper2, hscper, hfl02,
        pytrunc, hq0, hfl0, pyIndex, hpne, hsceval, pymod, hp.not_le]
  · intro htp ht2p
    have ht0 : (0:ℚ) ≤ t := le_trans hp.le htp
    have hfl02 : ⌊t / (p * 2)⌋ = 0 :=
      floor_div_eq_zero hp2 ht0 (by linarith)
    have hq0 : 0 ≤ t / p := div_nonneg ht0 hp.le
    have hfl1 : ⌊t / p⌋ = 1 := floor_div_eq_one hp htp ht2p
    have hdel := delay_inf_eval p 1 t hp
    constructor
    · norm_num [Modulate, eval, evalList, durGE, hp2, hper1, hfl02, pytrunc,
        hq0, hfl1, pyIndex, hpne, hdel, pymod, hp.not_le]
    · norm_num [Modulate, eval, evalList, durGE, hp2, hper2, hscper, hfl02,
        pytrunc, hq0, hfl1, pyIndex, hpne, pymod, hp.not_le]

/-- Claim C3, witness: the statement at carrier period 1, with slot-0 time
`1/3` and slot-1 time `4/3`. -/
theorem claim3_witness :
    (eval (Modulate (Delay 1 1 .inf) [1, 0] (1/2) false .inf) (1/3)
        = some (1/2) ∧
      eval (Modulate (Delay 1 (-1) .inf) [1, 0] (1/2) true .inf) (1/3)
        = some (1/2)) ∧
    (eval (Modulate (Delay 1 1 .inf) [1, 0] (1/2) false .inf) (4/3)
        = some 1 ∧
      eval (Modulate (Delay 1 (-1) .inf) [1, 0] (1/2) true .inf) (4/3)
        = some 0) :=
  ⟨(claim3_ask_modulation 1 (1/3) (by norm_num)).1 (by norm_num) (by norm_num),
   (claim3_ask_modulation 1 (4/3) (by norm_num)).2 (by norm_num) (by norm_num)⟩

/-- Claim C4, counterexample: a sequence holding one child of period 1 and
repeat count 2 stores total period 1 (the child's bare period), not
`period * repeat_count = 2`. -/
theorem claim4_counterexample :
    (WaveformSeq [Delay 1 0 (.fin 2)]).period ≠
      (Delay 1 0 (.fin 2)).period * 2 := by
  norm_num [WaveformSeq, Delay, Waveform.period, sumPeriods]

/-- Claim C4, amended: for every Sequence the stored total period equals the
sum over its children of each child's period (repeat counts are NOT factored
in), both at construction and after every `append` or `prepend`; both
mutators update the total by the new child's period and preserve the
invariant. -/
theorem claim4_seq_period_invariant :
    (∀ ws : List Waveform, seqPeriodInv (WaveformSeq ws)) ∧
    (∀ w x : Waveform, seqPeriodInv w →
      seqPeriodInv (w.append x) ∧ seqPeriodInv (w.prepend x)) := by
  constructor
  · intro ws
    simp [WaveformSeq, seqPeriodInv]
  · intro w x h
    cases w with
    | seq ws sp c =>
        simp only [seqPeriodInv] at h
        constructor
        · simp [Waveform.append, seqPeriodInv, h, sumPeriods_append,
            sumPeriods_cons, sumPeriods_nil]
        · simp [Waveform.prepend, seqPeriodInv, h, sumPeriods_cons]
          ring
    | base d => exact ⟨trivial, trivial⟩
    | add ws sp c => exact ⟨trivial, trivial⟩
    | mul ws sp c => exact ⟨trivial, trivial⟩
    | arb p data c => exact ⟨trivial, trivial⟩
    | delay p v c => exact ⟨trivial, trivial⟩
    | mod sc bs m destr sp c => exact ⟨trivial, trivial⟩

/-- Claim C4, witness: the invariant holds for a freshly built sequence and
survives an `append`. -/
theorem claim4_witness :
    seqPeriodInv ((WaveformSeq [Delay 1 0 (.fin 1)]).append
      (Delay 2 5 (.fin 1))) :=
  (claim4_seq_period_invariant.2 (WaveformSeq [Delay 1 0 (.fin 1)])
    (Delay 2 5 (.fin 1))
    (claim4_seq_period_invariant.1 [Delay 1 0 (.fin 1)])).1

/-- Claim C5: a sequence of two children with positive periods `P1`, `P2`
and repeat counts 1: evaluation at `P1 + x` for `0 ≤ x < P2` delegates to
the second child at local time `x`, and evaluation at any `t ≥ P1 + P2`
yields 0 (the sequence's default). -/
theorem claim5_seq_two_children (c1 c2 : Waveform) (x t : ℚ)
    (h1 : 0 < c1.period) (h2 : 0 < c2.period)
    (hc1 : c1.count = .fin 1) (hc2 : c2.count = .fin 1) :
    (0 ≤ x → x < c2.period →
      eval (WaveformSeq [c1, c2]) (c1.period + x) = eval c2 x) ∧
    (c1.period + c2.period ≤ t → eval (WaveformSeq [c1, c2]) t = some 0) := by
  have hsum : sumPeriods [c1, c2] = c1.period + c2.period := by
    simp [sumPeriods]
  constructor
  · intro hx0 hxlt
    have hsp : 0 < c1.period + c2.period := by linarith
    have hmod : pymod (c1.period + x) (c1.period + c2.period)
        = some (c1.period + x) :=
      pymod_self hsp (by linarith) (by linarith)
    have hd : durGE (c1.period + x) (c1.period + c2.period) (.fin 1)
        = false := by
      simp only [durGE, mul_one, decide_eq_false_iff_not, not_le]
      linarith
    have hd1 : durLT (c1.period + x) 0 c1.period (.fin 1) = false := by
      simp only [durLT, mul_one, zero_add, decide_eq_false_iff_not, not_lt]
      linarith
    have hd2 : durLT (c1.period + x) c1.period c2.period (.fin 1)
        = true := by
      simp only [durLT, mul_one, decide_eq_true_eq]
      linarith
    simp only [WaveformSeq, eval, hsum, hd, Bool.false_eq_true, if_false,
      hmod, Option.some_bind, seqData, hc1, hc2, hd1, hd2, if_true,
      zero_add, mul_one]
    congr 1
    ring
  · intro hge
    have hd : durGE t (c1.period + c2.period) (.fin 1) = true := by
      simp only [durGE, mul_one, decide_eq_true_eq]
      linarith
    simp [WaveformSeq, eval, hsum, hd]

/-- Claim C5, witness: two constant delays of periods 1 and 2; the sequence
at `1 + 1/2` equals the second child at `1/2`, and at `t = 5` it is 0. -/
theorem claim5_witness :
    eval (WaveformSeq [Delay 1 4 (.fin 1), Delay 2 7 (.fin 1)]) (1 + 1/2)
        = eval (Delay 2 7 (.fin 1)) (1/2) ∧
    eval (WaveformSeq [Delay 1 4 (.fin 1), Delay 2 7 (.fin 1)]) 5
        = some 0 := by
  have h := claim5_seq_two_children (Delay 1 4 (.fin 1)) (Delay 2 7 (.fin 1))
    (1/2) 5 (by norm_num [Delay, Waveform.period])
    (by norm_num [Delay, Waveform.period]) rfl rfl
  constructor
  · have h1 := h.1 (by norm_num) (by norm_num [Delay, Waveform.period])
    simpa [Delay, Waveform.period] using h1
  · exact h.2 (by norm_num [Delay, Waveform.period])

/-- Claim C6: for an amplitude-shift modulated waveform with finite repeat
count, evaluation at any time at or past `period * repeat_count` takes the
default branch and never raises: the destructive variant yields 0 there and
the non-destructive variant defers to the raw (un-inverted) carrier's own
evaluation (its value, or its own after-burst default). -/
theorem claim6_modulate_after_burst (carrier : Waveform) (bs : List ℤ)
    (m q t : ℚ) (destr : Bool)
    (h : carrier.period * bs.length * q ≤ t) :
    eval (Modulate carrier bs m destr (.fin q)) t =
      if destr then some 0 else eval carrier t := by
  cases destr <;> simp [Modulate, eval, durGE, h]

/-- Claim C6, witness: a one-bit destructive and non-destructive modulation
over a one-period carrier, queried past the burst. -/
theorem claim6_witness :
    eval (Modulate (Delay 1 2 (.fin 1)) [1] (1/2) true (.fin 1)) 3 = some 0 ∧
    eval (Modulate (Delay 1 2 (.fin 1)) [1] (1/2) false (.fin 1)) 3 =
      eval (Delay 1 2 (.fin 1)) 3 := by
  constructor
  · have h := claim6_modulate_after_burst (Delay 1 2 (.fin 1)) [1] (1/2) 1 3
      true (by norm_num [Delay, Waveform.period])
    simpa using h
  · have h := claim6_modulate_after_burst (Delay 1 2 (.fin 1)) [1] (1/2) 1 3
      false (by norm_num [Delay, Waveform.period])
    simpa using h

/-- Claim C7, counterexample: `WaveformArb` accepts a single-sample list at
construction (no InvalidParameter is raised anywhere), and evaluation at
time 0 — inside the active window — then fails with a ZeroDivisionError
(`__timestep` divides by `len(data) - 1 = 0`), so evaluation is not total
after a successful construction. -/
theorem claim7_counterexample :
    eval (WaveformArb 1 [5] (.fin 1)) 0 = none := by
  norm_num [eval, WaveformArb, durGE, pymod, arbData, arbTimestep]

/-- Claim C7, amended: construction performs no parameter validation.  A
periodic waveform with non-positive period is accepted and evaluates to its
default (0) at every non-negative time, and an arbitrary-sample waveform
with a single sample is accepted but every evaluation inside its active
window fails with a division-by-zero — the failure happens at evaluation
time, not construction time. -/
theorem claim7_no_construction_validation :
    (∀ p v t : ℚ, p ≤ 0 → 0 ≤ t → eval (Delay p v (.fin 1)) t = some 0) ∧
    (∀ p q v t : ℚ, 0 ≤ t → t < p * q →
      eval (WaveformArb p [v] (.fin q)) t = none) := by
  constructor
  · intro p v t hp h0
    simp [eval, Delay, durGE, le_trans hp h0]
  · intro p q v t h0 hlt
    have hpq : 0 < p * q := lt_of_le_of_lt h0 hlt
    have hp : p ≠ 0 := by
      rintro rfl
      simp at hpq
    simp [eval, WaveformArb, durGE, pymod, arbData, arbTimestep, hp,
      not_le.mpr hlt]

/-- Claim C7, witness: a zero-period delay evaluates to the default at time
5, and a single-sample arb fails at time one half. -/
theorem claim7_witness :
    eval (Delay 0 7 (.fin 1)) 5 = some 0 ∧
    eval (WaveformArb 1 [5] (.fin 1)) (1/2) = none :=
  ⟨claim7_no_construction_validation.1 0 7 5 le_rfl (by norm_num),
   claim7_no_construction_validation.2 1 1 5 (1/2) (by norm_num) (by norm_num)⟩

/-- Claim C8: `GapModulate` prepends an initial hold of duration
`ceil(delay / carrier.period) * carrier.period`, then appends per bit a
two-segment symbol (falling ramp of `c_transition` carrier periods plus a
flat hold filling the symbol to `c_one` periods for a set bit, `c_zero` for
a clear bit) followed by the shared idle template of `c_idle` periods; the
resulting sequence's total period is the initial hold plus, per bit, the
symbol duration plus the idle duration. -/
theorem claim8_gap_modulate_period (carrier : Waveform) (bs : List ℤ)
    (d : ℚ) (cz co ci ct : ℕ) (hp : 0 < carrier.period) :
    (GapModulate carrier bs d cz co ci ct).period =
      carrier.period * ⌈d / carrier.period⌉ +
      (bs.map fun b =>
        (if b ≠ 0 then (co : ℚ) else (cz : ℚ)) * carrier.period +
          (ci : ℚ) * carrier.period).sum := by
  simp only [GapModulate, WaveformSeq, Waveform.period, sumPeriods_cons,
    sumPeriods_flatMap_pair, WaveformArb, Ramp]
  congr 1
  refine congrArg List.sum (List.map_congr_left fun b hb => ?_)
  by_cases hb0 : b = 0 <;>
    simp [hb0, WaveformSeq, WaveformArb, Ramp, Waveform.period, sumPeriods]

/-- Claim C8, witness: a period-1 carrier, bits `[1, 0]`, delay `3/2`
(rounded up to 2 carrier periods) and the default cycle counts
`9, 15, 20, 4`: total period `2 + (15 + 20) + (9 + 20) = 66`. -/
theorem claim8_witness :
    (GapModulate (Delay 1 0 (.fin 1)) [1, 0] (3/2) 9 15 20 4).period = 66 := by
  have h := claim8_gap_modulate_period (Delay 1 0 (.fin 1)) [1, 0] (3/2)
    9 15 20 4 (by norm_num [Delay, Waveform.period])
  rw [h]
  have hc : ⌈(3:ℚ)/2⌉ = 2 := by
    rw [Int.ceil_eq_iff]
    norm_num
  norm_num [Delay, Waveform.period, hc]

/-- Claim C9, counterexample: on the constant-zero sample list `[0, 0]` the
quantizer does not produce all-zero output: `y / np.max(np.abs(y))` divides
by 0.0, the normalized values are NaN, and the integer conversion
`int(v * 32767)` raises ValueError, so construction fails. -/
theorem claim9_counterexample :
    signalQuantize [0, 0] ≠ some [0, 0] := by
  norm_num [signalQuantize, maxAbs]
  decide

/-- Claim C9, amended: when the maximum absolute sampled value is nonzero,
the quantizer divides every sample by it and scales by 32767 (the top of the
signed 16-bit range) with truncation toward zero; when the maximum absolute
value is 0 (flat zero waveform) the normalization produces NaN values and
the integer conversion raises, so no output is produced at all — the
max-abs-0 case is not special-cased to zeros. -/
theorem claim9_quantize :
    (∀ y : List ℚ, y ≠ [] → maxAbs y ≠ 0 →
      signalQuantize y = some (y.map fun v => pytrunc (v / maxAbs y * 32767))) ∧
    (∀ y : List ℚ, y ≠ [] → maxAbs y = 0 → signalQuantize y = none) := by
  constructor
  · intro y hne hm
    cases y with
    | nil => exact absurd rfl hne
    | cons a ys => simp [signalQuantize, hm]
  · intro y hne hm
    cases y with
    | nil => exact absurd rfl hne
    | cons a ys => simp [signalQuantize, hm]

/-- Claim C9, witness: samples `[1, 2]` normalize by 2 and quantize to
`[16383, 32767]`, and the flat list `[0]` yields no output. -/
theorem claim9_witness :
    signalQuantize [1, 2] = some [16383, 32767] ∧
    signalQuantize [0] = none := by
  constructor
  · have h := claim9_quantize.1 [1, 2] (by simp) (by norm_num [maxAbs])
    rw [h]
    have hm : maxAbs [1, 2] = 2 := by norm_num [maxAbs]
    have h1 : ⌊(32767:ℚ)/2⌋ = 16383 := by rw [Int.floor_eq_iff]; norm_num
    norm_num [hm, pytrunc, h1]
  · exact claim9_quantize.2 [0] (by simp) (by norm_num [maxAbs])

/-- Claim C10: the reserved-character membership test in `Signal.__init__`
compares the whole reserved list against each single character of the name,
so it is false for every name — including names containing `.`, `_`, `:`,
`-`, `*` or `+` — and the `ValueError` branch is unreachable: construction
accepts any name. -/
theorem claim10_name_check_unreachable (name : List Char) :
    signalNameRejected name = false := by
  simp only [signalNameRejected, decide_eq_false_iff_not, List.mem_map]
  rintro ⟨ch, _, h⟩
  exact PyVal.noConfusion h

end SDG2000X
